import Mathlib

/-!
Report download client (`v201705/report_download.go`).

A shallow embedding of the report download service: the CSV report parser
`parseReport`, the structured fault `ApiError` with its derived `Code`, and the
three entry points `Get`, `StreamAWQL` and `AWQL`.

Go strings and byte streams are lists of characters. The delimiters the CSV
reader looks at are ASCII, so splitting on characters and on bytes agree.
Library code the file calls is modelled here from its documented behaviour
(`encoding/csv`, `strings.Split`, the XML decoder on the documents described
below) or taken as a parameter of the service (the HTTP client, the XML
encoder).
-/

namespace Gads

/-! ## Strings, errors, streams -/

/-- A Go `string` (or the content of a byte stream). -/
abbrev GoString := List Char

/-- The comma, the field delimiter of the CSV reader. -/
def comma : Char := Char.ofNat 44

/-- The line feed character. -/
def LF : Char := Char.ofNat 10

/-- The carriage return character. -/
def CR : Char := Char.ofNat 13

/-- The double quote character. -/
def dquote : Char := Char.ofNat 34

/-- The dot, separator of the segments of an error type string. -/
def dot : Char := Char.ofNat 46

/-- `ApiError`: the fault the server reports. Its `Type` is the error string,
for example `AuthorizationError.USER_PERMISSION_DENIED`. -/
structure ApiError where
  Type_ : GoString
deriving DecidableEq, Repr

/-- Values of Go's `error` interface that occur in this file. `EOF` is `io.EOF`;
`ErrFieldCount`, `ErrBareQuote` and `ErrQuote` are the parse errors of
`encoding/csv`; `errorString` is what `errors.New` builds; `apiError` is an
`ApiError` value used as an error; `other` stands
for any error of a library that the file only passes on (transport, XML
encoding or decoding, a failing read). -/
inductive GoError where
  | EOF
  | ErrFieldCount
  | ErrBareQuote
  | ErrQuote
  | errorString (text : GoString)
  | apiError (e : ApiError)
  | other (tag : Nat)
deriving DecidableEq, Repr

/-- An `io.Reader`: the bytes it delivers, and the error it reports once they are
used up (`io.EOF` for a stream that ends cleanly). -/
structure IoReader where
  data : GoString
  endErr : GoError
deriving DecidableEq, Repr

/-- The outcome of running a Go function in the model: it returns a value, it
panics (index out of range), or the fuel of a loop ran out. -/
inductive Exec (α : Type) where
  | ret (a : α)
  | panic
  | outOfFuel
deriving DecidableEq, Repr

/-! ## `encoding/csv`: the reader with its default settings

`csv.NewReader` sets `Comma` to a comma and leaves `Comment`, `LazyQuotes`,
`TrimLeadingSpace` off and `FieldsPerRecord` at 0. -/

/-- The reader's view of its input: `\r\n` is folded to `\n`, and a `\r` that is
the very last byte is dropped. -/
def foldCRLF : GoString → GoString
  | [] => []
  | [c] => if c = CR then [] else [c]
  | c :: d :: rest =>
    if c = CR ∧ d = LF then LF :: foldCRLF rest else c :: foldCRLF (d :: rest)

/-- Where the field scanner stands inside a record. -/
inductive Mode where
  | fieldStart
  | unquoted
  | quoted
  | quoteSeen
deriving DecidableEq, Repr

/-- What reading one record gives: the record, the error, and the unread input. -/
structure RawRead where
  record : List GoString
  err : Option GoError
  rest : GoString
deriving DecidableEq, Repr

/-- The field scanner of the CSV reader. It reads the fields of one record up to
the end of the line or of the input. `acc` holds the fields read so far and `buf`
the field being read. A quote inside an unquoted field is `ErrBareQuote`; inside
a quoted field a quote must be doubled or be followed by a comma, a line end or
the end of the input, anything else is `ErrQuote`, as is a quoted field that is
still open when the input ends. When the input ends with a read error other
than `io.EOF`, that error is returned. -/
def scanFields (endErr : GoError) : Mode → List GoString → GoString → GoString → RawRead
  | mode, acc, buf, [] =>
    if endErr ≠ GoError.EOF then ⟨[], some endErr, []⟩
    else if mode = Mode.quoted then ⟨[], some GoError.ErrQuote, []⟩
    else ⟨acc ++ [buf], none, []⟩
  | Mode.fieldStart, acc, _, c :: rest =>
    if c = comma then scanFields endErr Mode.fieldStart (acc ++ [[]]) [] rest
    else if c = LF then ⟨acc ++ [[]], none, rest⟩
    else if c = dquote then scanFields endErr Mode.quoted acc [] rest
    else scanFields endErr Mode.unquoted acc [c] rest
  | Mode.unquoted, acc, buf, c :: rest =>
    if c = comma then scanFields endErr Mode.fieldStart (acc ++ [buf]) [] rest
    else if c = LF then ⟨acc ++ [buf], none, rest⟩
    else if c = dquote then ⟨[], some GoError.ErrBareQuote, rest⟩
    else scanFields endErr Mode.unquoted acc (buf ++ [c]) rest
  | Mode.quoted, acc, buf, c :: rest =>
    if c = dquote then scanFields endErr Mode.quoteSeen acc buf rest
    else scanFields endErr Mode.quoted acc (buf ++ [c]) rest
  | Mode.quoteSeen, acc, buf, c :: rest =>
    if c = comma then scanFields endErr Mode.fieldStart (acc ++ [buf]) [] rest
    else if c = LF then ⟨acc ++ [buf], none, rest⟩
    else if c = dquote then scanFields endErr Mode.quoted acc (buf ++ [dquote]) rest
    else ⟨[], some GoError.ErrQuote, rest⟩

/-- Reads the next record: empty lines are skipped, the end of the input gives no
record and the stream's final error (`io.EOF` for a clean end). -/
def readRecord (endErr : GoError) : GoString → RawRead
  | [] => ⟨[], some endErr, []⟩
  | c :: rest =>
    if c = LF then readRecord endErr rest
    else scanFields endErr Mode.fieldStart [] [] (c :: rest)

/-- A `csv.Reader`: the expected number of fields per record and the unread input. -/
structure CsvReader where
  FieldsPerRecord : Int
  input : GoString
  endErr : GoError
deriving DecidableEq, Repr

/-- `csv.NewReader`. -/
def NewReader (report : IoReader) : CsvReader :=
  ⟨0, foldCRLF report.data, report.endErr⟩

/-- `(*csv.Reader).Read`: reads one record. With `FieldsPerRecord` at 0 the first
record sets it to its number of fields; once it is positive, a record with
another number of fields is returned together with `ErrFieldCount`. -/
def CsvReader.Read (r : CsvReader) : (List GoString × Option GoError) × CsvReader :=
  let raw := readRecord r.endErr r.input
  match raw.err with
  | some e => ((raw.record, some e), ⟨r.FieldsPerRecord, raw.rest, r.endErr⟩)
  | none =>
    if r.FieldsPerRecord > 0 then
      if (raw.record.length : Int) ≠ r.FieldsPerRecord then
        ((raw.record, some GoError.ErrFieldCount), ⟨r.FieldsPerRecord, raw.rest, r.endErr⟩)
      else ((raw.record, none), ⟨r.FieldsPerRecord, raw.rest, r.endErr⟩)
    else if r.FieldsPerRecord = 0 then
      ((raw.record, none), ⟨raw.record.length, raw.rest, r.endErr⟩)
    else ((raw.record, none), ⟨r.FieldsPerRecord, raw.rest, r.endErr⟩)

/-! ## `parseReport` -/

/-- A `map[string]string`, as an association list with at most one entry per key. -/
abbrev Row := List (GoString × GoString)

/-- The assignment `row[column] = value`. -/
def rowSet : Row → GoString → GoString → Row
  | [], column, value => [(column, value)]
  | (k, v) :: m, column, value =>
    if k = column then (column, value) :: m else (k, v) :: rowSet m column value

/-- The lookup `row[column]`, `none` when the key is absent. -/
def rowGet : Row → GoString → Option GoString
  | [], _ => none
  | (k, v) :: m, column => if k = column then some v else rowGet m column

/-- The keys of a row. -/
def rowKeys (row : Row) : List GoString := row.map Prod.fst

/-- The inner loop of `parseReport`,
`for i := 0; i < len(record); i++ { column := header[i]; row[column] = record[i] }`,
entered at index `i` with the cells `record[i:]` still to do. `header[i]` out of
range is a run-time panic, here `none`. -/
def fillRow (header : List GoString) : List GoString → Nat → Row → Option Row
  | [], _, row => some row
  | cell :: cells, i, row =>
    match header[i]? with
    | none => none
    | some column => fillRow header cells (i + 1) (rowSet row column cell)

/-- The `for` loop of `parseReport`. `io.EOF` breaks out of the loop, after which
the function returns the collection and the outer `err` (nil, since the header
was read); any other error returns the collection built so far and that error. -/
def parseLoop (header : List GoString) :
    Nat → CsvReader → List Row → Exec (List Row × Option GoError)
  | 0, _, _ => Exec.outOfFuel
  | fuel + 1, reader, collection =>
    match reader.Read with
    | ((_, some e), _) =>
      if e = GoError.EOF then Exec.ret (collection, none)
      else Exec.ret (collection, some e)
    | ((record, none), reader1) =>
      match fillRow header record 0 [] with
      | none => Exec.panic
      | some row => parseLoop header fuel reader1 (collection ++ [row])

/-- `parseReport`: reads the header, then one row per record. The loop runs on
fuel, one unit per record read; the unread input plus one is enough. -/
def parseReport (report : IoReader) : Exec (List Row × Option GoError) :=
  match (NewReader report).Read with
  | ((_, some e), _) => Exec.ret ([], some e)
  | ((header, none), reader) => parseLoop header (reader.input.length + 1) reader []

/-- A stream that delivers the bytes of `s` and then ends cleanly. -/
def bytesReader (s : String) : IoReader := ⟨s.toList, GoError.EOF⟩

/-! ## `ApiError` -/

/-- `strings.Split(s, sep)` for a separator of one character: the pieces of `s`
between the occurrences of `sep`, of which there is always at least one. -/
def Split (sep : Char) : GoString → List GoString
  | [] => [[]]
  | c :: cs =>
    if c = sep then [] :: Split sep cs
    else
      match Split sep cs with
      | [] => [[c]]
      | p :: ps => (c :: p) :: ps

/-- `ApiError.Error`. -/
def ApiError.Error (s : ApiError) : GoString := s.Type_

/-- `ApiError.Code`:
`if parts := strings.Split(s.Type, "."); len(parts) > 1 { return parts[1] }; return s.Type`. -/
def ApiError.Code (s : ApiError) : GoString :=
  let parts := Split dot s.Type_
  if h : 1 < parts.length then parts[1] else s.Type_

/-- The text of an error, `err.Error()`, for the errors this file builds itself. -/
def GoError.Error : GoError → GoString
  | GoError.errorString text => text
  | GoError.apiError e => e.Error
  | GoError.EOF => "EOF".toList
  | _ => []

/-! ## The service -/

/-- An `xml.Name`. -/
structure XmlName where
  Space : GoString
  Local : GoString
deriving DecidableEq, Repr

/-- Modelled from the spec: the `Selector` of a report definition, declared
elsewhere in the package. It names the fields to include and carries the XML name
it is serialized under. -/
structure Selector where
  XMLName : XmlName
  Fields : List GoString
deriving DecidableEq, Repr

/-- Modelled from the spec: `ReportDefinition`, declared elsewhere in the package.
Beyond its selector it is opaque to this file, `Rest` stands for its other fields. -/
structure ReportDefinition where
  Selector : Selector
  Rest : GoString
deriving DecidableEq, Repr

/-- `reportDefinitionXml`: a report definition with the XML name of its root. -/
structure reportDefinitionXml where
  ReportDefinition : ReportDefinition
  XMLName : XmlName
deriving DecidableEq, Repr

/-- `ReportDownloadError`: the document a response other than 200 carries. -/
structure ReportDownloadError where
  XMLName : XmlName
  ApiError : ApiError
deriving DecidableEq, Repr

/-- A `url.Values` form, as the list of its fields in the order they were added. -/
abbrev Form := List (GoString × GoString)

/-- An `http.Request`. The body is kept as the form that `form.Encode()` encodes. -/
structure Request where
  Method : GoString
  Url : GoString
  Header : List (GoString × GoString)
  Body : Form
deriving DecidableEq, Repr

/-- An `http.Response`: the status code and the body stream. -/
structure Response where
  StatusCode : Int
  Body : IoReader
deriving DecidableEq, Repr

/-- Modelled from the spec: `Auth`, declared elsewhere in the package. It exposes a
developer token, a customer id and an HTTP client; `Client` is the client's `Do`,
which gives a response or a transport error. -/
structure Auth where
  DeveloperToken : GoString
  CustomerId : GoString
  Client : Request → Except GoError Response

/-- `ReportDownloadService`. -/
structure ReportDownloadService where
  Auth : Auth

/-- `NewReportDownloadService`. -/
def NewReportDownloadService (auth : Auth) : ReportDownloadService := ⟨auth⟩

/-- What the file takes from outside: the package constants `baseUrl` and
`reportDownloadServiceUrl.Url`, and the library functions `http.NewRequest`,
`xml.MarshalIndent` and `xml.NewDecoder(body).Decode` (into a
`ReportDownloadError`). -/
structure Lib where
  baseUrl : GoString
  reportDownloadServiceUrl : GoString
  NewRequest : GoString → GoString → Form → Except GoError Request
  MarshalIndent : reportDefinitionXml → Except GoError GoString
  Decode : IoReader → Except GoError ReportDownloadError

/-- An operation a function applies to the body of the response it received. -/
inductive BodyOp where
  | xmlDecode
  | readAll
  | csvRead
  | close
deriving DecidableEq, Repr

/-- A run of an entry point: its outcome and the operations it applied to the
response body before it returned, in order. -/
structure Run (α : Type) where
  out : Exec α
  ops : List BodyOp

/-- `ioutil.ReadAll`: all the bytes of the stream; a clean end is no error. -/
def ReadAll (r : IoReader) : GoString × Option GoError :=
  (r.data, if r.endErr = GoError.EOF then none else some r.endErr)

/-- `req.Header.Add`. -/
def Request.addHeader (req : Request) (key value : GoString) : Request :=
  ⟨req.Method, req.Url, req.Header ++ [(key, value)], req.Body⟩

/-- `makeRequest`: builds the POST request with its five headers and hands it to
the client. -/
def ReportDownloadService.makeRequest (lib : Lib) (s : ReportDownloadService)
    (form : Form) : Except GoError Response :=
  match lib.NewRequest "POST".toList lib.reportDownloadServiceUrl form with
  | Except.error err => Except.error err
  | Except.ok req =>
    let req := req.addHeader "developerToken".toList s.Auth.DeveloperToken
    let req := req.addHeader "clientCustomerId".toList s.Auth.CustomerId
    let req := req.addHeader "skipReportHeader".toList "true".toList
    let req := req.addHeader "skipReportSummary".toList "true".toList
    let req := req.addHeader "Content-Type".toList "application/x-www-form-urlencoded".toList
    s.Auth.Client req

/-- The result of `parseReport` as the pair `(interface{}, error)` that `Get` and
`AWQL` return: the collection is boxed, `none` being the nil interface. -/
def boxRows : Exec (List Row × Option GoError) → Exec (Option (List Row) × Option GoError)
  | Exec.ret (collection, err) => Exec.ret (some collection, err)
  | Exec.panic => Exec.panic
  | Exec.outOfFuel => Exec.outOfFuel

/-- The first statements of `Get`: the selector gets the name `selector` in the
namespace `baseUrl`, and the definition is wrapped with the root name
`reportDefinition` in the same namespace. -/
def namedDefinition (lib : Lib) (reportDefinition : ReportDefinition) : reportDefinitionXml :=
  let selector : Selector :=
    ⟨⟨lib.baseUrl, "selector".toList⟩, reportDefinition.Selector.Fields⟩
  ⟨⟨selector, reportDefinition.Rest⟩, ⟨lib.baseUrl, "reportDefinition".toList⟩⟩

/-- `Get`. The deferred `resp.Body.Close()` runs on every return after the request
succeeded. -/
def ReportDownloadService.Get (lib : Lib) (s : ReportDownloadService)
    (reportDefinition : ReportDefinition) : Run (Option (List Row) × Option GoError) :=
  match lib.MarshalIndent (namedDefinition lib reportDefinition) with
  | Except.error err => ⟨Exec.ret (none, some err), []⟩
  | Except.ok body =>
    let form : Form := [("__rdxml".toList, body)]
    match s.makeRequest lib form with
    | Except.error err => ⟨Exec.ret (none, some err), []⟩
    | Except.ok resp =>
      if resp.StatusCode ≠ 200 then
        match lib.Decode resp.Body with
        | Except.error err => ⟨Exec.ret (none, some err), [BodyOp.xmlDecode, BodyOp.close]⟩
        | Except.ok el =>
          ⟨Exec.ret (none, some (GoError.apiError el.ApiError)),
            [BodyOp.xmlDecode, BodyOp.close]⟩
      else ⟨boxRows (parseReport resp.Body), [BodyOp.csvRead, BodyOp.close]⟩

/-- `StreamAWQL`: on status 200 the body is handed to the caller, unread and
open; otherwise the body is read to its end and becomes the text of the error. -/
def ReportDownloadService.StreamAWQL (lib : Lib) (s : ReportDownloadService)
    (awql fmt : GoString) : Run (Option IoReader × Option GoError) :=
  let form : Form := [("__rdquery".toList, awql), ("__fmt".toList, fmt)]
  match s.makeRequest lib form with
  | Except.error err => ⟨Exec.ret (none, some err), []⟩
  | Except.ok resp =>
    if resp.StatusCode ≠ 200 then
      match ReadAll resp.Body with
      | (_, some err) => ⟨Exec.ret (none, some err), [BodyOp.readAll]⟩
      | (response, none) =>
        ⟨Exec.ret (none, some (GoError.errorString response)), [BodyOp.readAll]⟩
    else ⟨Exec.ret (some resp.Body, none), []⟩

/-- `AWQL`: `StreamAWQL`, then on success `defer body.Close()` and
`parseReport(body)`. -/
def ReportDownloadService.AWQL (lib : Lib) (s : ReportDownloadService)
    (awql fmt : GoString) : Run (Option (List Row) × Option GoError) :=
  let stream := s.StreamAWQL lib awql fmt
  match stream.out with
  | Exec.ret (_, some err) => ⟨Exec.ret (none, some err), stream.ops⟩
  | Exec.ret (some body, none) =>
    ⟨boxRows (parseReport body), stream.ops ++ [BodyOp.csvRead, BodyOp.close]⟩
  | Exec.ret (none, none) => ⟨Exec.panic, stream.ops⟩
  | Exec.panic => ⟨Exec.panic, stream.ops⟩
  | Exec.outOfFuel => ⟨Exec.outOfFuel, stream.ops⟩

/-! ## `encoding/xml`: decoding a `ReportDownloadError`

The decoder is modelled in strict mode, as `xml.NewDecoder` sets it up, on the
documents made of start tags without attributes, end tags, empty-element tags
and character data with the five predefined entities. Attributes, comments,
CDATA sections, processing instructions, directives, numeric character
references, names with a colon and names outside ASCII are outside the model:
on them it gives no answer (`none`). -/

/-- The character `<`. -/
def ltChar : Char := Char.ofNat 60

/-- The character `>`. -/
def gtChar : Char := Char.ofNat 62

/-- The character `&`. -/
def ampChar : Char := Char.ofNat 38

/-- The character `/`. -/
def slashChar : Char := Char.ofNat 47

/-- The character `;`. -/
def semicolon : Char := Char.ofNat 59

/-- The character `]`. -/
def rbracket : Char := Char.ofNat 93

/-- The character `:`. -/
def colon : Char := Char.ofNat 58

/-- The byte 0, the initial value of the two bytes of look-behind. -/
def nulChar : Char := Char.ofNat 0

/-- An `*xml.SyntaxError`. -/
def xmlSyntaxError : GoError := GoError.other 1

/-- An `xml.UnmarshalError`. -/
def xmlUnmarshalError : GoError := GoError.other 2

/-- `isNameByte`: the ASCII bytes a name may contain. -/
def isNameByte (c : Char) : Bool :=
  (65 ≤ c.toNat && c.toNat ≤ 90) || (97 ≤ c.toNat && c.toNat ≤ 122) ||
    (48 ≤ c.toNat && c.toNat ≤ 57) || c.toNat = 95 || c.toNat = 58 || c.toNat = 46 ||
    c.toNat = 45

/-- The ASCII characters a name may start with, the colon apart: letters and the
underscore. -/
def isNameStart (c : Char) : Bool :=
  (65 ≤ c.toNat && c.toNat ≤ 90) || (97 ≤ c.toNat && c.toNat ≤ 122) || c.toNat = 95

/-- The white space that `(*Decoder).space` skips inside a tag. -/
def isXmlSpace (c : Char) : Bool :=
  c.toNat = 32 || c.toNat = 13 || c.toNat = 10 || c.toNat = 9

/-- `isInCharacterRange`: the characters XML allows in a document. -/
def isInCharacterRange (c : Char) : Bool :=
  c.toNat = 9 || c.toNat = 10 || c.toNat = 13 || (32 ≤ c.toNat && c.toNat ≤ 55295) ||
    (57344 ≤ c.toNat && c.toNat ≤ 65533) || (65536 ≤ c.toNat && c.toNat ≤ 1114111)

/-- The predefined entities `lt`, `gt`, `amp`, `apos` and `quot`. -/
def entityChar (name : GoString) : Option Char :=
  if name = "lt".toList then some ltChar
  else if name = "gt".toList then some gtChar
  else if name = "amp".toList then some ampChar
  else if name = "apos".toList then some (Char.ofNat 39)
  else if name = "quot".toList then some dquote
  else none

/-- A raw token of the decoder. `selfClose` is an empty-element tag, which the
decoder hands out as a start element followed by its end element; `bad` ends the
token stream with an error and `unsupported` with syntax outside the model. -/
inductive RawTok where
  | start (name : GoString)
  | selfClose (name : GoString)
  | close (name : GoString)
  | text (data : GoString)
  | bad (err : GoError)
  | unsupported
deriving DecidableEq, Repr

/-- Where the tokenizer stands: in character data (`buf` is the data read so
far, `b0` and `b1` the last two bytes read), in an entity after `&`, or in a
tag. After the name of a start tag and white space, a name byte would start an
attribute (outside the model); any other byte that is not `/` or `>` is a syntax
error. -/
inductive LexState where
  | text (buf : GoString) (b0 b1 : Char)
  | entity (buf : GoString) (name : GoString)
  | tagOpen
  | startName (acc : GoString)
  | startSpace (name : GoString)
  | startSlash (name : GoString)
  | endOpen
  | endName (acc : GoString)
  | endSpace (name : GoString)
deriving DecidableEq, Repr

/-- The error for an input that ends inside a token: `unexpected EOF` as a syntax
error on a clean end, the read error otherwise. -/
def eofError (endErr : GoError) : GoError :=
  if endErr = GoError.EOF then xmlSyntaxError else endErr

/-- What a complete element name gives, before the rest of the tag is read: no
answer for a name with a colon, a syntax error for an invalid name. -/
def checkName (name : GoString) : Option RawTok :=
  if colon ∈ name then some RawTok.unsupported
  else
    match name with
    | [] => some (RawTok.bad xmlSyntaxError)
    | c :: _ => if isNameStart c then none else some (RawTok.bad xmlSyntaxError)

/-- The tokenizer, `(*Decoder).rawToken` called again and again: the tokens of the
input up to its end, or up to the first error or unsupported construct. -/
def lex (endErr : GoError) : LexState → GoString → List RawTok
  | LexState.text buf _ _, [] => if buf = [] then [] else [RawTok.text buf]
  | LexState.text buf b0 b1, c :: rest =>
    if b0 = rbracket ∧ b1 = rbracket ∧ c = gtChar then
      [RawTok.bad xmlSyntaxError]
    else if c = ltChar then
      if buf = [] then lex endErr LexState.tagOpen rest
      else RawTok.text buf :: lex endErr LexState.tagOpen rest
    else if c = ampChar then lex endErr (LexState.entity buf []) rest
    else if c = CR then lex endErr (LexState.text (buf ++ [LF]) b1 c) rest
    else if b1 = CR ∧ c = LF then lex endErr (LexState.text buf b1 c) rest
    else if isInCharacterRange c then lex endErr (LexState.text (buf ++ [c]) b1 c) rest
    else [RawTok.bad xmlSyntaxError]
  | LexState.entity _ _, [] => [RawTok.bad (eofError endErr)]
  | LexState.entity buf name, c :: rest =>
    if name = [] ∧ c.toNat = 35 then [RawTok.unsupported]
    else if isNameByte c ∨ 128 ≤ c.toNat then
      lex endErr (LexState.entity buf (name ++ [c])) rest
    else if c = semicolon then
      match entityChar name with
      | some r => lex endErr (LexState.text (buf ++ [r]) nulChar nulChar) rest
      | none => [RawTok.bad xmlSyntaxError]
    else [RawTok.bad xmlSyntaxError]
  | LexState.tagOpen, [] => [RawTok.bad (eofError endErr)]
  | LexState.tagOpen, c :: rest =>
    if c = slashChar then lex endErr LexState.endOpen rest
    else if c.toNat = 63 ∨ c.toNat = 33 ∨ 128 ≤ c.toNat then [RawTok.unsupported]
    else if isNameByte c then lex endErr (LexState.startName [c]) rest
    else [RawTok.bad xmlSyntaxError]
  | LexState.startName _, [] => [RawTok.bad (eofError endErr)]
  | LexState.startName acc, c :: rest =>
    if 128 ≤ c.toNat then [RawTok.unsupported]
    else if isNameByte c then lex endErr (LexState.startName (acc ++ [c])) rest
    else
      match checkName acc with
      | some tok => [tok]
      | none =>
        if isXmlSpace c then lex endErr (LexState.startSpace acc) rest
        else if c = slashChar then lex endErr (LexState.startSlash acc) rest
        else if c = gtChar then
          RawTok.start acc :: lex endErr (LexState.text [] nulChar nulChar) rest
        else [RawTok.bad xmlSyntaxError]
  | LexState.startSpace _, [] => [RawTok.bad (eofError endErr)]
  | LexState.startSpace name, c :: rest =>
    if isXmlSpace c then lex endErr (LexState.startSpace name) rest
    else if c = slashChar then lex endErr (LexState.startSlash name) rest
    else if c = gtChar then
      RawTok.start name :: lex endErr (LexState.text [] nulChar nulChar) rest
    else if isNameByte c ∨ 128 ≤ c.toNat then [RawTok.unsupported]
    else [RawTok.bad xmlSyntaxError]
  | LexState.startSlash _, [] => [RawTok.bad (eofError endErr)]
  | LexState.startSlash name, c :: rest =>
    if c = gtChar then
      RawTok.selfClose name :: lex endErr (LexState.text [] nulChar nulChar) rest
    else [RawTok.bad xmlSyntaxError]
  | LexState.endOpen, [] => [RawTok.bad (eofError endErr)]
  | LexState.endOpen, c :: rest =>
    if 128 ≤ c.toNat then [RawTok.unsupported]
    else if isNameByte c then lex endErr (LexState.endName [c]) rest
    else [RawTok.bad xmlSyntaxError]
  | LexState.endName _, [] => [RawTok.bad (eofError endErr)]
  | LexState.endName acc, c :: rest =>
    if 128 ≤ c.toNat then [RawTok.unsupported]
    else if isNameByte c then lex endErr (LexState.endName (acc ++ [c])) rest
    else
      match checkName acc with
      | some tok => [tok]
      | none =>
        if isXmlSpace c then lex endErr (LexState.endSpace acc) rest
        else if c = gtChar then
          RawTok.close acc :: lex endErr (LexState.text [] nulChar nulChar) rest
        else [RawTok.bad xmlSyntaxError]
  | LexState.endSpace _, [] => [RawTok.bad (eofError endErr)]
  | LexState.endSpace name, c :: rest =>
    if isXmlSpace c then lex endErr (LexState.endSpace name) rest
    else if c = gtChar then
      RawTok.close name :: lex endErr (LexState.text [] nulChar nulChar) rest
    else [RawTok.bad xmlSyntaxError]

/-- The state of unmarshalling into a `ReportDownloadError`: the open elements,
innermost first; how many of them are being skipped (elements no field takes);
the `Type` of the `ApiError` so far; and the character data of the `type` element
being read. -/
structure Walk where
  stack : List GoString
  skip : Nat
  type : GoString
  data : GoString
deriving DecidableEq, Repr

/-- One step of unmarshalling: go on, stop with an error, or finish with the
decoded value. -/
inductive WalkStep where
  | next (w : Walk)
  | fail (err : GoError)
  | done (el : ReportDownloadError)
deriving DecidableEq, Repr

/-- A start element. The root must be named `reportDownloadError`, as the tag of
`XMLName` says; inside it the element `ApiError` goes to the field `ApiError`, and
inside that the element `type` to the field `Type`, as its tag says. Every other
element is skipped with all it contains. -/
def openElement (w : Walk) (name : GoString) : WalkStep :=
  if 0 < w.skip then WalkStep.next ⟨name :: w.stack, w.skip + 1, w.type, w.data⟩
  else
    match w.stack.length with
    | 0 =>
      if name = "reportDownloadError".toList then
        WalkStep.next ⟨name :: w.stack, 0, w.type, w.data⟩
      else WalkStep.fail xmlUnmarshalError
    | 1 =>
      if name = "ApiError".toList then WalkStep.next ⟨name :: w.stack, 0, w.type, w.data⟩
      else WalkStep.next ⟨name :: w.stack, 1, w.type, w.data⟩
    | 2 =>
      if name = "type".toList then WalkStep.next ⟨name :: w.stack, 0, w.type, []⟩
      else WalkStep.next ⟨name :: w.stack, 1, w.type, w.data⟩
    | _ => WalkStep.next ⟨name :: w.stack, 1, w.type, w.data⟩

/-- An end element. It must close the innermost open element. The end of the
`type` element stores its character data in `Type`; the end of the root ends the
decoding. -/
def closeElement (w : Walk) (name : GoString) : WalkStep :=
  match w.stack with
  | [] => WalkStep.fail xmlSyntaxError
  | top :: stack =>
    if top ≠ name then WalkStep.fail xmlSyntaxError
    else if 0 < w.skip then WalkStep.next ⟨stack, w.skip - 1, w.type, w.data⟩
    else
      match stack.length with
      | 0 => WalkStep.done ⟨⟨[], top⟩, ⟨w.type⟩⟩
      | 2 => WalkStep.next ⟨stack, 0, w.data, w.data⟩
      | _ => WalkStep.next ⟨stack, 0, w.type, w.data⟩

/-- Unmarshalling over the tokens. Character data counts only directly inside
the `type` element. When the tokens run out the result is the read error of the
stream, or on a clean end `io.EOF` before the root and a syntax error inside
it. -/
def unmarshalTokens (endErr : GoError) :
    Walk → List RawTok → Option (Except GoError ReportDownloadError)
  | w, [] =>
    if endErr ≠ GoError.EOF then some (Except.error endErr)
    else if w.stack = [] then some (Except.error GoError.EOF)
    else some (Except.error xmlSyntaxError)
  | _, RawTok.bad err :: _ => some (Except.error err)
  | _, RawTok.unsupported :: _ => none
  | w, RawTok.text data :: rest =>
    if w.skip = 0 ∧ w.stack.length = 3 then
      unmarshalTokens endErr ⟨w.stack, w.skip, w.type, w.data ++ data⟩ rest
    else unmarshalTokens endErr w rest
  | w, RawTok.start name :: rest =>
    match openElement w name with
    | WalkStep.next w1 => unmarshalTokens endErr w1 rest
    | WalkStep.fail err => some (Except.error err)
    | WalkStep.done el => some (Except.ok el)
  | w, RawTok.selfClose name :: rest =>
    match openElement w name with
    | WalkStep.next w1 =>
      match closeElement w1 name with
      | WalkStep.next w2 => unmarshalTokens endErr w2 rest
      | WalkStep.fail err => some (Except.error err)
      | WalkStep.done el => some (Except.ok el)
    | WalkStep.fail err => some (Except.error err)
    | WalkStep.done el => some (Except.ok el)
  | w, RawTok.close name :: rest =>
    match closeElement w name with
    | WalkStep.next w1 => unmarshalTokens endErr w1 rest
    | WalkStep.fail err => some (Except.error err)
    | WalkStep.done el => some (Except.ok el)

/-- `xml.NewDecoder(body).Decode(el)` for `el` a `*ReportDownloadError`, on the
documents the model covers; `none` on the others. -/
def xmlDecode (body : IoReader) : Option (Except GoError ReportDownloadError) :=
  unmarshalTokens body.endErr ⟨[], 0, [], []⟩
    (lex body.endErr (LexState.text [] nulChar nulChar) body.data)

/-- The library's decoder agrees with the model on every document the model
covers. -/
def decodesXml (lib : Lib) : Prop :=
  ∀ body r, xmlDecode body = some r → lib.Decode body = r

/-! ## Vocabulary of the claims -/

/-- The remainder of `t` after its first dot (empty when `t` has no dot). -/
def afterFirstDot (t : GoString) : GoString := (t.dropWhile (fun c => c ≠ dot)).drop 1

/-- The part of `t` before its first dot (all of `t` when it has no dot). -/
def firstSegment (t : GoString) : GoString := t.takeWhile (fun c => c ≠ dot)

/-- The XML document of a download error whose `ApiError` has the type string `t`. -/
def errorDocument (t : GoString) : GoString :=
  "<reportDownloadError><ApiError><type>".toList ++ t ++
    "</type></ApiError></reportDownloadError>".toList

/-- A library for concrete runs: requests are always built, every definition
serializes to `xmlText`, and the decoder is the modelled XML decoder (with an
error of its own on a document outside the model). -/
def sampleLib (xmlText : GoString) : Lib :=
  ⟨"https://adwords.google.com/api/adwords/cm/v201705".toList,
    "https://adwords.google.com/api/adwords/reportdownload/v201705".toList,
    fun method url form => Except.ok ⟨method, url, [], form⟩,
    fun _ => Except.ok xmlText,
    fun body =>
      match xmlDecode body with
      | some r => r
      | none => Except.error (GoError.other 0)⟩

/-- A character that stands for itself in character data: not `<`, `>`, `&` or a
carriage return, and one that XML allows. -/
def plainChar (c : Char) : Bool :=
  c != ltChar && c != gtChar && c != ampChar && c != CR && isInCharacterRange c

/-- Text made of characters that stand for themselves. -/
def plainText (t : GoString) : Prop := ∀ c ∈ t, plainChar c = true

/-- A service whose client answers every request with `resp`. -/
def serviceReplying (resp : Response) : ReportDownloadService :=
  ⟨⟨"developer-token".toList, "123-456-7890".toList, fun _ => Except.ok resp⟩⟩

/-- A report definition selecting two fields. -/
def sampleDefinition : ReportDefinition :=
  ⟨⟨⟨[], []⟩, ["CampaignId".toList, "Clicks".toList]⟩, []⟩

/-! ## Well-formed CSV bodies -/

/-- The input splits into the given lines: reading record after record gives
exactly these, each without error, and then a clean end of the input. -/
def splitsInto (endErr : GoError) : GoString → List (List GoString) → Prop
  | input, [] => (readRecord endErr input).err = some GoError.EOF
  | input, line :: lines =>
    (readRecord endErr input).err = none ∧ (readRecord endErr input).record = line ∧
      splitsInto endErr (readRecord endErr input).rest lines

/-- The stream is a CSV body whose lines are `lines` (each line the list of its
fields), as the reader sees them. -/
def csvLines (report : IoReader) (lines : List (List GoString)) : Prop :=
  splitsInto report.endErr (foldCRLF report.data) lines

/-- Reading record after record from `input` gives the lines `lines`, each without
error, and leaves `rest` unread. -/
def readsLines (endErr : GoError) : GoString → List (List GoString) → GoString → Prop
  | input, [], rest => rest = input
  | input, line :: lines, rest =>
    (readRecord endErr input).err = none ∧ (readRecord endErr input).record = line ∧
      readsLines endErr (readRecord endErr input).rest lines rest

/-- The next line of `rest` is malformed for a header of `n` fields: reading it
gives a parse or read error, or a record whose number of fields is not `n`. -/
def malformedNext (endErr : GoError) (rest : GoString) (n : Nat) : Prop :=
  (∃ e, (readRecord endErr rest).err = some e ∧ e ≠ GoError.EOF) ∨
    ((readRecord endErr rest).err = none ∧ (readRecord endErr rest).record.length ≠ n)

/-- A field that needs no quoting: it has no comma, line end, carriage return or
quote in it. -/
def plainField (f : GoString) : Prop :=
  comma ∉ f ∧ LF ∉ f ∧ CR ∉ f ∧ dquote ∉ f

/-- The text of one CSV line: its fields separated by commas, then a line feed. -/
def renderLine : List GoString → GoString
  | [] => [LF]
  | [f] => f ++ [LF]
  | f :: g :: fs => f ++ comma :: renderLine (g :: fs)

/-- The text of a CSV body: its lines one after the other. -/
def renderBody : List (List GoString) → GoString
  | [] => []
  | l :: ls => renderLine l ++ renderBody ls

/-- A line that can be written without quoting and is not blank: it has a field,
it is not a single empty field, and its fields are plain. -/
def plainLine (l : List GoString) : Prop :=
  l ≠ [] ∧ l ≠ [[]] ∧ ∀ f ∈ l, plainField f

/-- The fields of a line given as strings, for concrete inputs. -/
def fieldsOf (cells : List String) : List GoString := cells.map String.toList

/-! ## Facts about the CSV reader -/

theorem scanFields_rest_le (endErr : GoError) (input : GoString) :
    ∀ (mode : Mode) (acc : List GoString) (buf : GoString),
      (scanFields endErr mode acc buf input).rest.length ≤ input.length := by
  induction input with
  | nil =>
    intro mode acc buf
    unfold scanFields
    by_cases h1 : endErr ≠ GoError.EOF <;> by_cases h2 : mode = Mode.quoted <;> simp [h1, h2]
  | cons c rest ih =>
    intro mode acc buf
    cases mode <;> simp only [scanFields] <;> split_ifs <;>
      first
        | (simp; done)
        | (have h := ih Mode.fieldStart (acc ++ [[]]) []; simp only [List.length_cons]; omega)
        | (have h := ih Mode.fieldStart (acc ++ [buf]) []; simp only [List.length_cons]; omega)
        | (have h := ih Mode.quoted acc []; simp only [List.length_cons]; omega)
        | (have h := ih Mode.unquoted acc [c]; simp only [List.length_cons]; omega)
        | (have h := ih Mode.unquoted acc (buf ++ [c]); simp only [List.length_cons]; omega)
        | (have h := ih Mode.quoteSeen acc buf; simp only [List.length_cons]; omega)
        | (have h := ih Mode.quoted acc (buf ++ [c]); simp only [List.length_cons]; omega)
        | (have h := ih Mode.quoted acc (buf ++ [dquote]); simp only [List.length_cons]; omega)

theorem scanFields_rest_lt (endErr : GoError) (c : Char) (input : GoString)
    (mode : Mode) (acc : List GoString) (buf : GoString) :
    (scanFields endErr mode acc buf (c :: input)).rest.length < (c :: input).length := by
  cases mode <;> simp only [scanFields] <;> split_ifs <;>
    first
      | (simp; done)
      | (have h := scanFields_rest_le endErr input Mode.fieldStart (acc ++ [[]]) []
         simp only [List.length_cons]; omega)
      | (have h := scanFields_rest_le endErr input Mode.fieldStart (acc ++ [buf]) []
         simp only [List.length_cons]; omega)
      | (have h := scanFields_rest_le endErr input Mode.quoted acc []
         simp only [List.length_cons]; omega)
      | (have h := scanFields_rest_le endErr input Mode.unquoted acc [c]
         simp only [List.length_cons]; omega)
      | (have h := scanFields_rest_le endErr input Mode.unquoted acc (buf ++ [c])
         simp only [List.length_cons]; omega)
      | (have h := scanFields_rest_le endErr input Mode.quoteSeen acc buf
         simp only [List.length_cons]; omega)
      | (have h := scanFields_rest_le endErr input Mode.quoted acc (buf ++ [c])
         simp only [List.length_cons]; omega)
      | (have h := scanFields_rest_le endErr input Mode.quoted acc (buf ++ [dquote])
         simp only [List.length_cons]; omega)

/-- A record that is read without error has more fields than were there before:
every record has at least one field. -/
theorem scanFields_record_length (endErr : GoError) (input : GoString) :
    ∀ (mode : Mode) (acc : List GoString) (buf : GoString),
      (scanFields endErr mode acc buf input).err = none →
      acc.length + 1 ≤ (scanFields endErr mode acc buf input).record.length := by
  induction input with
  | nil =>
    intro mode acc buf
    unfold scanFields
    by_cases h1 : endErr ≠ GoError.EOF <;> by_cases h2 : mode = Mode.quoted <;> simp [h1, h2]
  | cons c rest ih =>
    intro mode acc buf
    cases mode <;> simp only [scanFields] <;> split_ifs <;> intro h <;>
      first
        | (simp; done)
        | exact ih _ _ _ h
        | (have h1 := ih _ _ _ h; simp only [List.length_append, List.length_singleton] at h1; omega)
        | simp at h

theorem readRecord_ok (endErr : GoError) (input : GoString)
    (h : (readRecord endErr input).err = none) :
    1 ≤ (readRecord endErr input).record.length ∧
      (readRecord endErr input).rest.length < input.length := by
  induction input with
  | nil => simp [readRecord] at h
  | cons c rest ih =>
    simp only [readRecord] at h ⊢
    split_ifs at h ⊢ with hc
    · have h1 := ih h
      simp only [List.length_cons]
      omega
    · refine ⟨?_, scanFields_rest_lt endErr c rest Mode.fieldStart [] []⟩
      have h1 := scanFields_record_length endErr (c :: rest) Mode.fieldStart [] [] h
      simpa using h1

/-- What a successful `Read` guarantees: the record has at least one field, input
was used up, and the field count is the expected one once that is set. -/
theorem Read_ok (r r1 : CsvReader) (record : List GoString)
    (h : r.Read = ((record, none), r1)) :
    1 ≤ record.length ∧ r1.input.length < r.input.length ∧ r1.endErr = r.endErr ∧
      r1.input = (readRecord r.endErr r.input).rest ∧
      record = (readRecord r.endErr r.input).record ∧
      (readRecord r.endErr r.input).err = none ∧
      (0 < r.FieldsPerRecord →
        (record.length : Int) = r.FieldsPerRecord ∧ r1.FieldsPerRecord = r.FieldsPerRecord) ∧
      (r.FieldsPerRecord = 0 → r1.FieldsPerRecord = record.length) := by
  unfold CsvReader.Read at h
  cases hr : (readRecord r.endErr r.input).err with
  | some e => simp [hr] at h
  | none =>
    have hok := readRecord_ok r.endErr r.input hr
    simp only [hr] at h
    split_ifs at h with h1 h2 h3 <;>
      simp only [Prod.mk.injEq, reduceCtorEq, and_false, false_and] at h
    · obtain ⟨⟨hrec, _⟩, hr1⟩ := h
      subst hr1; subst hrec
      refine ⟨hok.1, hok.2, rfl, rfl, rfl, rfl, ?_, ?_⟩
      · intro _; exact ⟨by push_neg at h2; exact h2, rfl⟩
      · intro h0; omega
    · obtain ⟨⟨hrec, _⟩, hr1⟩ := h
      subst hr1; subst hrec
      refine ⟨hok.1, hok.2, rfl, rfl, rfl, rfl, ?_, ?_⟩
      · intro hpos; omega
      · intro _; rfl
    · obtain ⟨⟨hrec, _⟩, hr1⟩ := h
      subst hr1; subst hrec
      refine ⟨hok.1, hok.2, rfl, rfl, rfl, rfl, ?_, ?_⟩
      · intro hpos; omega
      · intro h0; omega

theorem Read_of_raw_err (r : CsvReader) (e : GoError)
    (h : (readRecord r.endErr r.input).err = some e) :
    r.Read = (((readRecord r.endErr r.input).record, some e),
      ⟨r.FieldsPerRecord, (readRecord r.endErr r.input).rest, r.endErr⟩) := by
  unfold CsvReader.Read
  simp only [h]

theorem Read_of_raw_ok (r : CsvReader) (h : (readRecord r.endErr r.input).err = none)
    (hpos : 0 < r.FieldsPerRecord)
    (hlen : ((readRecord r.endErr r.input).record.length : Int) = r.FieldsPerRecord) :
    r.Read = (((readRecord r.endErr r.input).record, none),
      ⟨r.FieldsPerRecord, (readRecord r.endErr r.input).rest, r.endErr⟩) := by
  unfold CsvReader.Read
  simp only [h]
  rw [if_pos hpos, if_neg (by simp [hlen])]

theorem Read_first (r : CsvReader) (h : (readRecord r.endErr r.input).err = none)
    (h0 : r.FieldsPerRecord = 0) :
    r.Read = (((readRecord r.endErr r.input).record, none),
      ⟨(readRecord r.endErr r.input).record.length,
        (readRecord r.endErr r.input).rest, r.endErr⟩) := by
  unfold CsvReader.Read
  simp only [h]
  rw [if_neg (by omega), if_pos h0]

/-! ## Plain CSV texts are well-formed bodies -/

theorem foldCRLF_no_CR : ∀ (t : GoString), CR ∉ t → foldCRLF t = t
  | [], _ => rfl
  | [c], h => by
    have hc : ¬ c = CR := fun e => h (by simp [e])
    simp [foldCRLF, hc]
  | c :: d :: rest, h => by
    have hc : ¬ c = CR := fun e => h (by simp [e])
    have hrest : CR ∉ d :: rest := fun hm => h (List.mem_cons_of_mem _ hm)
    simp only [foldCRLF, hc, false_and, if_false, foldCRLF_no_CR (d :: rest) hrest]

theorem scanFields_unquoted_char (acc : List GoString) (buf : GoString) (x : Char)
    (tl : GoString) (h1 : ¬ x = comma) (h2 : ¬ x = LF) (h4 : ¬ x = dquote) :
    scanFields GoError.EOF Mode.unquoted acc buf (x :: tl) =
      scanFields GoError.EOF Mode.unquoted acc (buf ++ [x]) tl := by
  simp only [scanFields, if_neg h1, if_neg h2, if_neg h4]

theorem scanFields_fieldStart_char (acc : List GoString) (buf : GoString) (x : Char)
    (tl : GoString) (h1 : ¬ x = comma) (h2 : ¬ x = LF) (h4 : ¬ x = dquote) :
    scanFields GoError.EOF Mode.fieldStart acc buf (x :: tl) =
      scanFields GoError.EOF Mode.unquoted acc [x] tl := by
  simp only [scanFields, if_neg h1, if_neg h2, if_neg h4]

theorem scanFields_end_of_field (mode : Mode) (hmode : mode = Mode.fieldStart ∨ mode = Mode.unquoted)
    (acc : List GoString) (buf : GoString) (c : Char) (tl : GoString)
    (hc : c = comma ∨ c = LF) :
    scanFields GoError.EOF mode acc buf (c :: tl) =
      if c = comma then
        scanFields GoError.EOF Mode.fieldStart
          (acc ++ [if mode = Mode.fieldStart then [] else buf]) [] tl
      else ⟨acc ++ [if mode = Mode.fieldStart then [] else buf], none, tl⟩ := by
  have hne : ¬ LF = comma := by decide
  rcases hmode with hm | hm <;> rcases hc with hc | hc <;> subst hm <;> subst hc <;>
    simp [scanFields, hne]

theorem scanFields_unquoted_plain (f : GoString) (hf : plainField f) :
    ∀ (acc : List GoString) (buf : GoString) (tl : GoString),
      scanFields GoError.EOF Mode.unquoted acc buf (f ++ tl) =
        scanFields GoError.EOF Mode.unquoted acc (buf ++ f) tl := by
  induction f with
  | nil => intro acc buf tl; simp
  | cons x f ih =>
    intro acc buf tl
    obtain ⟨h1, h2, h3, h4⟩ := hf
    simp only [List.mem_cons, not_or] at h1 h2 h3 h4
    rw [List.cons_append, scanFields_unquoted_char acc buf x (f ++ tl)
      (fun e => h1.1 e.symm) (fun e => h2.1 e.symm) (fun e => h4.1 e.symm),
      ih ⟨h1.2, h2.2, h3.2, h4.2⟩]
    simp

theorem scanFields_field_plain (f : GoString) (hf : plainField f)
    (acc : List GoString) (c : Char) (rest : GoString) (hc : c = comma ∨ c = LF) :
    scanFields GoError.EOF Mode.fieldStart acc [] (f ++ c :: rest) =
      if c = comma then scanFields GoError.EOF Mode.fieldStart (acc ++ [f]) [] rest
      else ⟨acc ++ [f], none, rest⟩ := by
  cases f with
  | nil =>
    rw [List.nil_append, scanFields_end_of_field Mode.fieldStart (Or.inl rfl) acc [] c rest hc]
    simp
  | cons x f =>
    obtain ⟨h1, h2, h3, h4⟩ := hf
    simp only [List.mem_cons, not_or] at h1 h2 h3 h4
    rw [List.cons_append, scanFields_fieldStart_char acc [] x (f ++ c :: rest)
      (fun e => h1.1 e.symm) (fun e => h2.1 e.symm) (fun e => h4.1 e.symm),
      scanFields_unquoted_plain f ⟨h1.2, h2.2, h3.2, h4.2⟩,
      scanFields_end_of_field Mode.unquoted (Or.inr rfl) acc _ c rest hc]
    simp

theorem scanFields_renderLine :
    ∀ (l : List GoString), l ≠ [] → (∀ f ∈ l, plainField f) →
      ∀ (acc : List GoString) (rest : GoString),
        scanFields GoError.EOF Mode.fieldStart acc [] (renderLine l ++ rest) =
          ⟨acc ++ l, none, rest⟩
  | [], h, _ => absurd rfl h
  | [f], _, hp => by
    intro acc rest
    have hne : ¬ LF = comma := by decide
    simp only [renderLine, List.append_assoc, List.singleton_append]
    rw [scanFields_field_plain f (hp f (by simp)) acc LF rest (Or.inr rfl), if_neg hne]
  | f :: g :: fs, _, hp => by
    intro acc rest
    simp only [renderLine, List.append_assoc, List.cons_append]
    rw [scanFields_field_plain f (hp f (by simp)) acc comma _ (Or.inl rfl), if_pos rfl]
    rw [scanFields_renderLine (g :: fs) (by simp)
      (fun x hx => hp x (List.mem_cons_of_mem _ hx)) (acc ++ [f]) rest]
    simp

theorem readRecord_renderLine (l : List GoString) (hl : plainLine l) (rest : GoString) :
    readRecord GoError.EOF (renderLine l ++ rest) = ⟨l, none, rest⟩ := by
  obtain ⟨hne, hblank, hp⟩ := hl
  have hscan := scanFields_renderLine l hne hp [] rest
  simp only [List.nil_append] at hscan
  have hfirst : ∃ c tl, renderLine l ++ rest = c :: tl ∧ ¬ c = LF := by
    match l, hne, hblank, hp with
    | [], h, _, _ => exact absurd rfl h
    | [[]], _, h, _ => exact absurd rfl h
    | [x :: f], _, _, hp =>
      refine ⟨x, f ++ [LF] ++ rest, by simp [renderLine], ?_⟩
      have := (hp (x :: f) (by simp)).2.1
      exact fun e => this (by simp [e])
    | [] :: g :: fs, _, _, _ =>
      exact ⟨comma, renderLine (g :: fs) ++ rest, by simp [renderLine], by decide⟩
    | (x :: f) :: g :: fs, _, _, hp =>
      refine ⟨x, f ++ comma :: renderLine (g :: fs) ++ rest, by simp [renderLine], ?_⟩
      have := (hp (x :: f) (by simp)).2.1
      exact fun e => this (by simp [e])
  obtain ⟨c, tl, heq, hc⟩ := hfirst
  rw [heq] at hscan ⊢
  simp only [readRecord, if_neg hc]
  exact hscan

theorem renderLine_no_CR :
    ∀ (l : List GoString), (∀ f ∈ l, plainField f) → CR ∉ renderLine l
  | [], _ => by decide
  | [f], hp => by
    have := (hp f (by simp)).2.2.1
    have hne : ¬ CR = LF := by decide
    simp [renderLine, this, hne]
  | f :: g :: fs, hp => by
    have h1 := (hp f (by simp)).2.2.1
    have h2 := renderLine_no_CR (g :: fs) (fun x hx => hp x (List.mem_cons_of_mem _ hx))
    have hne : ¬ CR = comma := by decide
    simp [renderLine, h1, h2, hne]

theorem renderBody_no_CR (lines : List (List GoString))
    (hp : ∀ l ∈ lines, plainLine l) : CR ∉ renderBody lines := by
  induction lines with
  | nil => simp [renderBody]
  | cons l ls ih =>
    have h1 := renderLine_no_CR l (hp l (by simp)).2.2
    have h2 := ih (fun x hx => hp x (List.mem_cons_of_mem _ hx))
    simp [renderBody, h1, h2]

theorem splitsInto_renderBody (lines : List (List GoString))
    (hp : ∀ l ∈ lines, plainLine l) :
    splitsInto GoError.EOF (renderBody lines) lines := by
  induction lines with
  | nil => simp [splitsInto, renderBody, readRecord]
  | cons l ls ih =>
    have h := readRecord_renderLine l (hp l (by simp)) (renderBody ls)
    simp only [splitsInto, renderBody, h, true_and]
    exact ih (fun x hx => hp x (List.mem_cons_of_mem _ hx))

/-- Every text written from plain, non-blank lines is a well-formed CSV body with
exactly those lines. -/
theorem csvLines_renderBody (lines : List (List GoString))
    (hp : ∀ l ∈ lines, plainLine l) :
    csvLines ⟨renderBody lines, GoError.EOF⟩ lines := by
  simp only [csvLines, foldCRLF_no_CR _ (renderBody_no_CR lines hp)]
  exact splitsInto_renderBody lines hp

/-! ## Facts about rows -/

theorem rowKeys_rowSet (row : Row) (column value k : GoString) :
    k ∈ rowKeys (rowSet row column value) ↔ k ∈ rowKeys row ∨ k = column := by
  induction row with
  | nil => simp [rowSet, rowKeys]
  | cons kv m ih =>
    obtain ⟨k1, v1⟩ := kv
    simp only [rowSet]
    split_ifs with h
    · subst h
      simp only [rowKeys, List.map_cons, List.mem_cons]
      tauto
    · simp only [rowKeys, List.map_cons, List.mem_cons] at ih ⊢
      rw [ih]
      tauto

theorem rowGet_rowSet (row : Row) (column value k : GoString) :
    rowGet (rowSet row column value) k = if k = column then some value else rowGet row k := by
  induction row with
  | nil =>
    simp only [rowSet, rowGet]
    by_cases h : k = column
    · simp [h]
    · have h1 : ¬ column = k := fun e => h e.symm
      simp [h, h1]
  | cons kv m ih =>
    obtain ⟨k1, v1⟩ := kv
    simp only [rowSet]
    by_cases h : k1 = column
    · subst h
      simp only [if_true, rowGet]
      by_cases h2 : k1 = k
      · simp [h2]
      · have h3 : ¬ k = k1 := fun e => h2 e.symm
        simp [h2, h3]
    · simp only [if_neg h, rowGet, ih]
      by_cases h2 : k1 = k
      · subst h2
        simp [h]
      · simp [h2]

/-- The row-building loop does not panic when the cells left fit in the header. -/
theorem fillRow_some (header : List GoString) (cells : List GoString) :
    ∀ (i : Nat) (row : Row), i + cells.length ≤ header.length →
      ∃ row1, fillRow header cells i row = some row1 := by
  induction cells with
  | nil => intro i row _; exact ⟨row, rfl⟩
  | cons cell cells ih =>
    intro i row h
    simp only [List.length_cons] at h
    have hi : i < header.length := by omega
    simp only [fillRow, List.getElem?_eq_getElem hi]
    exact ih (i + 1) _ (by omega)

/-- The keys of a built row: those it had, and the header names at the positions
of the cells. -/
theorem fillRow_keys (header : List GoString) (cells : List GoString) :
    ∀ (i : Nat) (row row1 : Row), fillRow header cells i row = some row1 →
      ∀ k, k ∈ rowKeys row1 ↔ k ∈ rowKeys row ∨ k ∈ (header.drop i).take cells.length := by
  induction cells with
  | nil =>
    intro i row row1 h k
    simp only [fillRow, Option.some.injEq] at h
    subst h
    simp
  | cons cell cells ih =>
    intro i row row1 h k
    simp only [fillRow] at h
    cases hh : header[i]? with
    | none => simp [hh] at h
    | some column =>
      simp only [hh] at h
      rw [ih (i + 1) _ row1 h k, rowKeys_rowSet]
      have hi : i < header.length := (List.getElem?_eq_some.mp hh).1
      have hd : header.drop i = column :: header.drop (i + 1) := by
        rw [List.drop_eq_getElem_cons hi]
        congr 1
        exact (List.getElem?_eq_some.mp hh).2
      rw [hd]
      simp only [List.length_cons, List.take_succ_cons, List.mem_cons]
      tauto

/-- A key outside the header positions still to be assigned keeps its value. -/
theorem fillRow_get_other (header : List GoString) (cells : List GoString) :
    ∀ (i : Nat) (row row1 : Row), fillRow header cells i row = some row1 →
      ∀ k, k ∉ header.drop i → rowGet row1 k = rowGet row k := by
  induction cells with
  | nil =>
    intro i row row1 h k _
    simp only [fillRow, Option.some.injEq] at h
    subst h
    rfl
  | cons cell cells ih =>
    intro i row row1 h k hk
    simp only [fillRow] at h
    cases hh : header[i]? with
    | none => simp [hh] at h
    | some column =>
      simp only [hh] at h
      have hi : i < header.length := (List.getElem?_eq_some.mp hh).1
      have hd : header.drop i = column :: header.drop (i + 1) := by
        rw [List.drop_eq_getElem_cons hi]
        congr 1
        exact (List.getElem?_eq_some.mp hh).2
      rw [hd, List.mem_cons, not_or] at hk
      rw [ih (i + 1) _ row1 h k hk.2, rowGet_rowSet, if_neg hk.1]

/-- With pairwise distinct header names, a built row maps the header name at each
position to the cell at that position. -/
theorem fillRow_get (header : List GoString) (hnodup : header.Nodup)
    (cells : List GoString) :
    ∀ (i : Nat) (row row1 : Row), fillRow header cells i row = some row1 →
      ∀ (j : Nat) (column cell : GoString), header[i + j]? = some column →
        cells[j]? = some cell → rowGet row1 column = some cell := by
  induction cells with
  | nil =>
    intro i row row1 _ j column cell _ hc
    simp at hc
  | cons c cells ih =>
    intro i row row1 h j column cell hcol hcell
    simp only [fillRow] at h
    cases hh : header[i]? with
    | none => simp [hh] at h
    | some col =>
      simp only [hh] at h
      cases j with
      | zero =>
        simp only [Nat.add_zero] at hcol
        rw [hh] at hcol
        simp only [Option.some.injEq] at hcol
        subst hcol
        simp only [List.getElem?_cons_zero, Option.some.injEq] at hcell
        subst hcell
        have hi : i < header.length := (List.getElem?_eq_some.mp hh).1
        have hd : header.drop i = col :: header.drop (i + 1) := by
          rw [List.drop_eq_getElem_cons hi]
          congr 1
          exact (List.getElem?_eq_some.mp hh).2
        have hnd : (header.drop i).Nodup := List.Nodup.sublist (List.drop_sublist i header) hnodup
        rw [hd, List.nodup_cons] at hnd
        rw [fillRow_get_other header cells (i + 1) _ row1 h col hnd.1, rowGet_rowSet, if_pos rfl]
      | succ j =>
        simp only [List.getElem?_cons_succ] at hcell
        exact ih (i + 1) _ row1 h j column cell (by rw [← hcol]; congr 1; omega) hcell

/-! ## Facts about the loop of `parseReport` -/

/-- Once the expected field count is that of a non-empty header, the loop returns:
it neither panics nor runs out of fuel. -/
theorem parseLoop_returns (header : List GoString) (hpos : 0 < header.length) :
    ∀ (fuel : Nat) (reader : CsvReader) (collection : List Row),
      reader.FieldsPerRecord = header.length → reader.input.length < fuel →
      ∃ rows err, parseLoop header fuel reader collection = Exec.ret (rows, err) := by
  intro fuel
  induction fuel with
  | zero => intro reader collection _ h; omega
  | succ fuel ih =>
    intro reader collection hfpr hfuel
    rcases hR : reader.Read with ⟨⟨record, _ | e⟩, reader1⟩
    · have hok := Read_ok reader reader1 record hR
      obtain ⟨_, hlt, _, _, _, _, hcount, _⟩ := hok
      have hc := hcount (by omega)
      have hlen : record.length = header.length := by
        have := hc.1
        omega
      obtain ⟨row, hrow⟩ := fillRow_some header record 0 [] (by omega)
      simp only [parseLoop, hR, hrow]
      exact ih reader1 _ (by rw [hc.2, hfpr]) (by omega)
    · simp only [parseLoop, hR]
      split_ifs
      · exact ⟨_, _, rfl⟩
      · exact ⟨_, _, rfl⟩

/-- On a well-formed remainder the loop appends one row per line, each built from
its line, and returns without error. -/
theorem parseLoop_lines (header : List GoString) (hpos : 0 < header.length) :
    ∀ (lines : List (List GoString)) (fuel : Nat) (reader : CsvReader)
      (collection : List Row),
      splitsInto reader.endErr reader.input lines →
      (∀ l ∈ lines, l.length = header.length) →
      reader.FieldsPerRecord = header.length → reader.input.length < fuel →
      ∃ rows, parseLoop header fuel reader collection = Exec.ret (collection ++ rows, none) ∧
        List.Forall₂ (fun line row => fillRow header line 0 [] = some row) lines rows := by
  intro lines
  induction lines with
  | nil =>
    intro fuel reader collection hsplit _ _ hfuel
    cases fuel with
    | zero => omega
    | succ fuel =>
      simp only [splitsInto] at hsplit
      refine ⟨[], ?_, List.Forall₂.nil⟩
      simp only [parseLoop, Read_of_raw_err reader _ hsplit, if_true, List.append_nil]
  | cons line lines ih =>
    intro fuel reader collection hsplit hcount hfpr hfuel
    cases fuel with
    | zero => omega
    | succ fuel =>
      simp only [splitsInto] at hsplit
      obtain ⟨herr, hrec, hrest⟩ := hsplit
      have hlen : line.length = header.length := hcount line (List.mem_cons_self _ _)
      have hR := Read_of_raw_ok reader herr (by omega) (by rw [hrec, hfpr, hlen])
      rw [hrec] at hR
      obtain ⟨row, hrow⟩ := fillRow_some header line 0 [] (by omega)
      have hlt := (readRecord_ok reader.endErr reader.input herr).2
      obtain ⟨rows, hrows, hall⟩ := ih fuel
        ⟨reader.FieldsPerRecord, (readRecord reader.endErr reader.input).rest, reader.endErr⟩
        (collection ++ [row]) hrest
        (fun l hl => hcount l (List.mem_cons_of_mem _ hl)) hfpr (by simp only; omega)
      refine ⟨row :: rows, ?_, List.Forall₂.cons hrow hall⟩
      simp only [parseLoop, hR, hrow, hrows, List.append_assoc, List.singleton_append]

/-- What `parseReport` does on a well-formed body: no error, and one row per data
line, built from that line. -/
theorem parseReport_lines (report : IoReader) (header : List GoString)
    (lines : List (List GoString)) (hsplit : csvLines report (header :: lines))
    (hcount : ∀ l ∈ lines, l.length = header.length) :
    ∃ rows, parseReport report = Exec.ret (rows, none) ∧
      List.Forall₂ (fun line row => fillRow header line 0 [] = some row) lines rows := by
  simp only [csvLines, splitsInto] at hsplit
  obtain ⟨herr, hrec, hrest⟩ := hsplit
  have hR := Read_first (NewReader report) herr rfl
  have hok := readRecord_ok _ _ herr
  simp only [NewReader] at hR hok
  rw [hrec] at hR hok
  obtain ⟨rows, hrows, hall⟩ := parseLoop_lines header (by omega) lines
    ((readRecord report.endErr (foldCRLF report.data)).rest.length + 1)
    ⟨header.length, (readRecord report.endErr (foldCRLF report.data)).rest, report.endErr⟩
    [] hrest hcount rfl (by simp only; omega)
  refine ⟨rows, ?_, hall⟩
  simp only [parseReport, NewReader, hR, hrows, List.nil_append]

/-- Before a malformed line the loop builds one row per line, and it returns them
together with the error of the malformed line. -/
theorem parseLoop_malformed (header : List GoString) (hpos : 0 < header.length)
    (rest : GoString) :
    ∀ (good : List (List GoString)) (fuel : Nat) (reader : CsvReader)
      (collection : List Row),
      readsLines reader.endErr reader.input good rest →
      malformedNext reader.endErr rest header.length →
      (∀ l ∈ good, l.length = header.length) →
      reader.FieldsPerRecord = header.length → reader.input.length < fuel →
      ∃ rows e, parseLoop header fuel reader collection =
          Exec.ret (collection ++ rows, some e) ∧
        List.Forall₂ (fun line row => fillRow header line 0 [] = some row) good rows := by
  intro good
  induction good with
  | nil =>
    intro fuel reader collection hreads hbad _ hfpr hfuel
    cases fuel with
    | zero => omega
    | succ fuel =>
      simp only [readsLines] at hreads
      subst hreads
      rcases hbad with ⟨e, he, hne⟩ | ⟨herr, hlen⟩
      · refine ⟨[], e, ?_, List.Forall₂.nil⟩
        simp only [parseLoop, Read_of_raw_err reader _ he, if_neg hne, List.append_nil]
      · refine ⟨[], GoError.ErrFieldCount, ?_, List.Forall₂.nil⟩
        have hR : reader.Read = (((readRecord reader.endErr reader.input).record,
            some GoError.ErrFieldCount),
            ⟨reader.FieldsPerRecord, (readRecord reader.endErr reader.input).rest,
              reader.endErr⟩) := by
          unfold CsvReader.Read
          simp only [herr]
          rw [if_pos (by omega), if_pos (by rw [hfpr]; exact_mod_cast hlen)]
        simp only [parseLoop, hR, List.append_nil]
        rfl
  | cons line lines ih =>
    intro fuel reader collection hreads hbad hcount hfpr hfuel
    cases fuel with
    | zero => omega
    | succ fuel =>
      simp only [readsLines] at hreads
      obtain ⟨herr, hrec, hrest⟩ := hreads
      have hlen : line.length = header.length := hcount line (List.mem_cons_self _ _)
      have hR := Read_of_raw_ok reader herr (by omega) (by rw [hrec, hfpr, hlen])
      rw [hrec] at hR
      obtain ⟨row, hrow⟩ := fillRow_some header line 0 [] (by omega)
      have hlt := (readRecord_ok reader.endErr reader.input herr).2
      obtain ⟨rows, e, hrows, hall⟩ := ih fuel
        ⟨reader.FieldsPerRecord, (readRecord reader.endErr reader.input).rest, reader.endErr⟩
        (collection ++ [row]) hrest hbad
        (fun l hl => hcount l (List.mem_cons_of_mem _ hl)) hfpr (by simp only; omega)
      refine ⟨row :: rows, e, ?_, List.Forall₂.cons hrow hall⟩
      simp only [parseLoop, hR, hrow, hrows, List.append_assoc, List.singleton_append]

theorem forall₂_getElem? {α β : Type} (R : α → β → Prop) :
    ∀ (xs : List α) (ys : List β), List.Forall₂ R xs ys →
      ∀ (k : Nat) (x : α), xs[k]? = some x → ∃ y, ys[k]? = some y ∧ R x y := by
  intro xs ys h
  induction h with
  | nil => intro k x hx; simp at hx
  | cons hxy _ ih =>
    intro k x hx
    cases k with
    | zero =>
      simp only [List.getElem?_cons_zero, Option.some.injEq] at hx
      subst hx
      exact ⟨_, by simp, hxy⟩
    | succ k =>
      simp only [List.getElem?_cons_succ] at hx ⊢
      exact ih k x hx

/-! ## The claims about `parseReport` -/

/-- C1: for every well-formed CSV body of N ≥ 1 lines, each with as many fields as
the first, `parseReport` returns no error and exactly N - 1 rows, and the keys of
every row are exactly the column names of the header line; a body of the header
line alone gives zero rows and no error. -/
theorem parseReport_wellFormed (report : IoReader) (lines : List (List GoString))
    (hlines : csvLines report lines) (hN : 1 ≤ lines.length)
    (hcount : ∀ l ∈ lines, l.length = (lines.headD []).length) :
    ∃ rows, parseReport report = Exec.ret (rows, none) ∧
      rows.length = lines.length - 1 ∧
      (∀ row ∈ rows, ∀ k, k ∈ rowKeys row ↔ k ∈ lines.headD []) ∧
      (lines.length = 1 → rows = []) := by
  cases lines with
  | nil => simp at hN
  | cons header lines =>
    simp only [List.headD_cons] at hcount ⊢
    obtain ⟨rows, hrows, hall⟩ := parseReport_lines report header lines hlines
      (fun l hl => hcount l (List.mem_cons_of_mem _ hl))
    have hlen : rows.length = lines.length := hall.length_eq.symm
    refine ⟨rows, hrows, by simp [hlen], ?_, ?_⟩
    · intro row hrow k
      obtain ⟨i, hi⟩ := List.getElem?_of_mem hrow
      have hi1 : i < rows.length := (List.getElem?_eq_some.mp hi).1
      have hall1 := hall.flip
      obtain ⟨line, hline, hfill⟩ := forall₂_getElem? _ rows lines hall1 i row hi
      have hmem : line ∈ lines := List.getElem?_mem hline
      have hl := hcount line (List.mem_cons_of_mem _ hmem)
      rw [fillRow_keys header line 0 [] row hfill k, hl]
      simp [rowKeys]
    · intro h1
      simp only [List.length_cons] at h1
      exact List.length_eq_zero.mp (by omega)

theorem parseReport_wellFormed_witness :
    ∃ rows, parseReport (bytesReader "Campaign,Clicks\n7,10\n8,25\n") = Exec.ret (rows, none) ∧
      rows.length = 3 - 1 ∧
      (∀ row ∈ rows, ∀ k, k ∈ rowKeys row ↔ k ∈ fieldsOf ["Campaign", "Clicks"]) ∧
      ((3 : Nat) = 1 → rows = []) :=
  parseReport_wellFormed (bytesReader "Campaign,Clicks\n7,10\n8,25\n")
    [fieldsOf ["Campaign", "Clicks"], fieldsOf ["7", "10"], fieldsOf ["8", "25"]]
    ⟨rfl, rfl, rfl, rfl, rfl, rfl, rfl⟩ (by decide) (by decide)

/-- C2: for every well-formed CSV body whose header names are pairwise distinct,
the k-th returned row maps, for every column position i, the i-th header name to
the i-th cell of the (k+1)-th line. -/
theorem parseReport_zips_header (report : IoReader) (lines : List (List GoString))
    (hlines : csvLines report lines) (hN : 1 ≤ lines.length)
    (hcount : ∀ l ∈ lines, l.length = (lines.headD []).length)
    (hdistinct : (lines.headD []).Nodup) :
    ∃ rows, parseReport report = Exec.ret (rows, none) ∧
      ∀ (k : Nat) (dataLine : List GoString), lines[k + 1]? = some dataLine →
        ∃ row, rows[k]? = some row ∧
          ∀ (i : Nat) (column cell : GoString), (lines.headD [])[i]? = some column →
            dataLine[i]? = some cell → rowGet row column = some cell := by
  cases lines with
  | nil => simp at hN
  | cons header lines =>
    simp only [List.headD_cons] at hcount hdistinct ⊢
    obtain ⟨rows, hrows, hall⟩ := parseReport_lines report header lines hlines
      (fun l hl => hcount l (List.mem_cons_of_mem _ hl))
    refine ⟨rows, hrows, ?_⟩
    intro k line hline
    simp only [List.getElem?_cons_succ] at hline
    obtain ⟨row, hrow, hfill⟩ := forall₂_getElem? _ lines rows hall k line hline
    refine ⟨row, hrow, ?_⟩
    intro i column cell hcol hcell
    exact fillRow_get header hdistinct line 0 [] row hfill i column cell
      (by simpa using hcol) hcell

theorem parseReport_zips_header_witness :
    ∃ rows, parseReport (bytesReader "Campaign,Clicks\r\n7,10\r\n8,25") = Exec.ret (rows, none) ∧
      ∀ (k : Nat) (dataLine : List GoString),
        [fieldsOf ["Campaign", "Clicks"], fieldsOf ["7", "10"], fieldsOf ["8", "25"]][k + 1]? =
            some dataLine →
        ∃ row, rows[k]? = some row ∧
          ∀ (i : Nat) (column cell : GoString),
            (fieldsOf ["Campaign", "Clicks"])[i]? = some column →
            dataLine[i]? = some cell → rowGet row column = some cell :=
  parseReport_zips_header (bytesReader "Campaign,Clicks\r\n7,10\r\n8,25")
    [fieldsOf ["Campaign", "Clicks"], fieldsOf ["7", "10"], fieldsOf ["8", "25"]]
    ⟨rfl, rfl, rfl, rfl, rfl, rfl, rfl⟩ (by decide) (by decide) (by decide)

/-- C3, as the claim states it, fails: the body `a,b / 1,2 / 3` has a malformed
second data line, and `parseReport` returns the field-count error together with
the row of the first data line. -/
theorem parseReport_partial_rows :
    parseReport (bytesReader "a,b\n1,2\n3\n") =
      Exec.ret ([[("a".toList, "1".toList), ("b".toList, "2".toList)]],
        some GoError.ErrFieldCount) := by
  decide

/-- C3, amended: for every CSV body whose header and data lines `good` are
well-formed and whose next line is malformed, `parseReport` returns an error, and
with it exactly one row per line of `good`, built from that line; no row is
returned for the malformed line or any line after it, and none at all when the
first data line is the malformed one. -/
theorem parseReport_malformed_line (report : IoReader) (header : List GoString)
    (good : List (List GoString)) (rest : GoString)
    (hreads : readsLines report.endErr (foldCRLF report.data) (header :: good) rest)
    (hcount : ∀ l ∈ good, l.length = header.length)
    (hbad : malformedNext report.endErr rest header.length) :
    ∃ rows e, parseReport report = Exec.ret (rows, some e) ∧
      rows.length = good.length ∧
      List.Forall₂ (fun line row => fillRow header line 0 [] = some row) good rows ∧
      (good = [] → rows = []) := by
  simp only [readsLines] at hreads
  obtain ⟨herr, hrec, hrest⟩ := hreads
  have hR := Read_first (NewReader report) herr rfl
  have hok := readRecord_ok _ _ herr
  simp only [NewReader] at hR hok
  rw [hrec] at hR hok
  obtain ⟨rows, e, hrows, hall⟩ := parseLoop_malformed header (by omega) rest good
    ((readRecord report.endErr (foldCRLF report.data)).rest.length + 1)
    ⟨header.length, (readRecord report.endErr (foldCRLF report.data)).rest, report.endErr⟩
    [] hrest hbad hcount rfl (by simp only; omega)
  refine ⟨rows, e, ?_, hall.length_eq.symm, hall, ?_⟩
  · simp only [parseReport, NewReader, hR, hrows, List.nil_append]
  · intro hg
    subst hg
    exact List.length_eq_zero.mp hall.length_eq.symm

theorem parseReport_malformed_line_witness :
    ∃ rows e, parseReport (bytesReader "a,b\n1,2\n3\n4,5\n") = Exec.ret (rows, some e) ∧
      rows.length = [fieldsOf ["1", "2"]].length ∧
      List.Forall₂ (fun line row => fillRow (fieldsOf ["a", "b"]) line 0 [] = some row)
        [fieldsOf ["1", "2"]] rows ∧
      ([fieldsOf ["1", "2"]] = [] → rows = []) :=
  parseReport_malformed_line (bytesReader "a,b\n1,2\n3\n4,5\n") (fieldsOf ["a", "b"])
    [fieldsOf ["1", "2"]] "3\n4,5\n".toList ⟨rfl, rfl, rfl, rfl, rfl⟩ (by decide)
    (Or.inr ⟨rfl, by decide⟩)

/-- C5: for the empty byte stream the header read fails, and `parseReport` returns
that failure (`io.EOF` for a stream that ends cleanly) and no rows, not a
successful empty result. -/
theorem parseReport_empty_stream (endErr : GoError) :
    ((NewReader ⟨[], endErr⟩).Read).1 = ([], some endErr) ∧
      parseReport ⟨[], endErr⟩ = Exec.ret ([], some endErr) ∧
      parseReport (bytesReader "") = Exec.ret ([], some GoError.EOF) := by
  refine ⟨rfl, rfl, rfl⟩

/-- For every input stream `parseReport` returns a collection and an error value. -/
theorem parseReport_returns (report : IoReader) :
    ∃ rows err, parseReport report = Exec.ret (rows, err) := by
  rcases hR : (NewReader report).Read with ⟨⟨header, _ | e⟩, reader⟩
  · obtain ⟨hpos, _, _, _, _, _, _, hfpr⟩ := Read_ok _ _ _ hR
    simp only [parseReport, hR]
    exact parseLoop_returns header (by omega) _ reader [] (hfpr rfl) (by omega)
  · simp only [parseReport, hR]
    exact ⟨_, _, rfl⟩

/-- C10: `parseReport` never indexes the header out of range. For every input
stream, well-formed or not, it returns: it does not panic, and its loop ends
within the fuel. -/
theorem parseReport_never_panics (report : IoReader) :
    parseReport report ≠ Exec.panic ∧
      ∃ rows err, parseReport report = Exec.ret (rows, err) := by
  have h := parseReport_returns report
  refine ⟨?_, h⟩
  obtain ⟨rows, err, hr⟩ := h
  rw [hr]
  exact fun hcontra => by cases hcontra

/-! ## `ApiError.Code` -/

theorem Split_no_sep (sep : Char) (t : GoString) (h : sep ∉ t) : Split sep t = [t] := by
  induction t with
  | nil => rfl
  | cons c cs ih =>
    simp only [List.mem_cons, not_or] at h
    have hc : ¬ c = sep := fun e => h.1 e.symm
    simp only [Split, if_neg hc, ih h.2]

theorem Split_head (sep : Char) (t : GoString) :
    ∃ rest, Split sep t = t.takeWhile (fun c => c ≠ sep) :: rest := by
  induction t with
  | nil => exact ⟨[], rfl⟩
  | cons c cs ih =>
    obtain ⟨rest, hrest⟩ := ih
    by_cases hc : c = sep
    · exact ⟨Split sep cs, by simp [Split, hc]⟩
    · exact ⟨rest, by simp [Split, hc, hrest]⟩

theorem Split_with_sep (sep : Char) (t : GoString) (h : sep ∈ t) :
    ∃ rest, Split sep t = t.takeWhile (fun c => c ≠ sep) ::
      ((t.dropWhile (fun c => c ≠ sep)).drop 1).takeWhile (fun c => c ≠ sep) :: rest := by
  induction t with
  | nil => simp at h
  | cons c cs ih =>
    by_cases hc : c = sep
    · obtain ⟨rest, hrest⟩ := Split_head sep cs
      exact ⟨rest, by simp [Split, hc, hrest]⟩
    · have hmem : sep ∈ cs := by
        rcases List.mem_cons.mp h with h1 | h1
        · exact absurd h1.symm hc
        · exact h1
      obtain ⟨rest, hrest⟩ := ih hmem
      exact ⟨rest, by simp [Split, hc, hrest]⟩

theorem takeWhile_no_sep (sep : Char) (t : GoString) (h : sep ∉ t) :
    t.takeWhile (fun c => c ≠ sep) = t := by
  induction t with
  | nil => rfl
  | cons c cs ih =>
    simp only [List.mem_cons, not_or] at h
    have hc : ¬ c = sep := fun e => h.1 e.symm
    rw [List.takeWhile_cons_of_pos (by simpa using hc), ih h.2]

/-- What `Code` computes: the second segment when there is a dot, else the string. -/
theorem Code_eq (t : GoString) :
    ApiError.Code ⟨t⟩ = (if dot ∈ t then firstSegment (afterFirstDot t) else t) := by
  by_cases hd : dot ∈ t
  · obtain ⟨rest, hrest⟩ := Split_with_sep dot t hd
    simp [ApiError.Code, hrest, hd, firstSegment, afterFirstDot]
  · simp [ApiError.Code, Split_no_sep dot t hd, hd]

/-- C4, as the claim states it, fails: for the type string `A.B.C` the remainder
after the first dot is `B.C`, and `Code` returns `B`. -/
theorem Code_not_remainder :
    ApiError.Code ⟨"A.B.C".toList⟩ = "B".toList ∧
      afterFirstDot "A.B.C".toList = "B.C".toList ∧
      ApiError.Code ⟨"A.B.C".toList⟩ ≠ afterFirstDot "A.B.C".toList := by
  decide

/-- C4, amended: `Code` returns the second dot-separated segment of the type
string, that is the part after the first dot up to the next dot or the end, and
the whole string when it has no dot; when the string has exactly one dot this is
the whole remainder after the dot. -/
theorem Code_second_segment (t : GoString) :
    ApiError.Code ⟨t⟩ = (if dot ∈ t then firstSegment (afterFirstDot t) else t) ∧
      (dot ∈ t → dot ∉ afterFirstDot t → ApiError.Code ⟨t⟩ = afterFirstDot t) := by
  have h1 := Code_eq t
  refine ⟨h1, ?_⟩
  intro hd hnd
  rw [h1, if_pos hd]
  exact takeWhile_no_sep dot _ hnd

theorem Code_second_segment_witness :
    ApiError.Code ⟨"AuthorizationError.USER_PERMISSION_DENIED".toList⟩ =
      afterFirstDot "AuthorizationError.USER_PERMISSION_DENIED".toList :=
  (Code_second_segment "AuthorizationError.USER_PERMISSION_DENIED".toList).2
    (by decide) (by decide)

/-! ## The entry points -/

theorem lex_text_char (endErr : GoError) (buf : GoString) (b0 b1 c : Char) (tl : GoString)
    (hb1 : b1 ≠ CR) (hc : plainChar c = true) :
    lex endErr (LexState.text buf b0 b1) (c :: tl) =
      lex endErr (LexState.text (buf ++ [c]) b1 c) tl := by
  simp only [plainChar, Bool.and_eq_true, bne_iff_ne, ne_eq] at hc
  obtain ⟨⟨⟨⟨h1, h2⟩, h3⟩, h4⟩, h5⟩ := hc
  have hne : ¬ (b0 = rbracket ∧ b1 = rbracket ∧ c = gtChar) := fun h => h2 h.2.2
  have hcr : ¬ (b1 = CR ∧ c = LF) := fun h => hb1 h.1
  simp only [lex, if_neg hne, if_neg h1, if_neg h3, if_neg h4, if_neg hcr, h5, if_true]

/-- Plain text up to the next `<` is one token of character data, unchanged. -/
theorem lex_text_plain (endErr : GoError) (t : GoString) (ht : plainText t) :
    ∀ (buf : GoString) (b0 b1 : Char) (rest : GoString), b1 ≠ CR →
      lex endErr (LexState.text buf b0 b1) (t ++ ltChar :: rest) =
        if buf ++ t = [] then lex endErr LexState.tagOpen rest
        else RawTok.text (buf ++ t) :: lex endErr LexState.tagOpen rest := by
  induction t with
  | nil =>
    intro buf b0 b1 rest _
    have hne : ¬ (b0 = rbracket ∧ b1 = rbracket ∧ ltChar = gtChar) := by
      intro h
      exact absurd h.2.2 (by decide)
    simp only [List.nil_append, List.append_nil, lex, if_neg hne, if_true]
  | cons c t ih =>
    intro buf b0 b1 rest hb1
    have hc := ht c (List.mem_cons_self _ _)
    have h4 : c ≠ CR := by
      simp only [plainChar, Bool.and_eq_true, bne_iff_ne, ne_eq] at hc
      exact hc.1.2
    rw [List.cons_append, lex_text_char endErr buf b0 b1 c _ hb1 hc,
      ih (fun x hx => ht x (List.mem_cons_of_mem _ hx)) (buf ++ [c]) b1 c rest h4]
    simp

/-- The tokens of the error document of a plain type string. -/
theorem lex_errorDocument (endErr : GoError) (t : GoString) (ht : plainText t) :
    lex endErr (LexState.text [] nulChar nulChar) (errorDocument t) =
      RawTok.start "reportDownloadError".toList :: RawTok.start "ApiError".toList ::
        RawTok.start "type".toList ::
        ((if t = [] then [] else [RawTok.text t]) ++
          [RawTok.close "type".toList, RawTok.close "ApiError".toList,
            RawTok.close "reportDownloadError".toList]) := by
  have h1 : lex endErr (LexState.text [] nulChar nulChar) (errorDocument t) =
      RawTok.start "reportDownloadError".toList :: RawTok.start "ApiError".toList ::
        RawTok.start "type".toList ::
        lex endErr (LexState.text [] nulChar nulChar)
          (t ++ ltChar :: "/type></ApiError></reportDownloadError>".toList) := rfl
  have h2 : lex endErr LexState.tagOpen "/type></ApiError></reportDownloadError>".toList =
      [RawTok.close "type".toList, RawTok.close "ApiError".toList,
        RawTok.close "reportDownloadError".toList] := rfl
  rw [h1, lex_text_plain endErr t ht [] nulChar nulChar _ (by decide), h2]
  by_cases hnil : t = []
  · simp [hnil]
  · simp [hnil]

/-- The decoder reads the error document of a plain type string `t` into an
`ApiError` whose `Type` is `t`. -/
theorem xmlDecode_errorDocument (endErr : GoError) (t : GoString) (ht : plainText t) :
    xmlDecode ⟨errorDocument t, endErr⟩ =
      some (Except.ok ⟨⟨[], "reportDownloadError".toList⟩, ⟨t⟩⟩) := by
  simp only [xmlDecode, lex_errorDocument endErr t ht]
  by_cases hnil : t = []
  · subst hnil
    rfl
  · simp only [if_neg hnil]
    rfl

theorem decodesXml_sampleLib (xmlText : GoString) : decodesXml (sampleLib xmlText) := by
  intro body r h
  simp only [sampleLib, h]

/-- C6, as the claim states it, fails: for the type string `A&amp;B.C` the response
body is the error document with that text, the decoder resolves the entity, and
the fault `Get` returns has the `Type` `A&B.C`, not `A&amp;B.C`. -/
theorem Get_entity_type_differs :
    ((serviceReplying ⟨403, ⟨errorDocument "A&amp;B.C".toList, GoError.EOF⟩⟩).Get
        (sampleLib "<reportDefinition></reportDefinition>".toList) sampleDefinition).out =
      Exec.ret (none, some (GoError.apiError ⟨"A&B.C".toList⟩)) ∧
    (GoError.apiError ⟨"A&B.C".toList⟩).Error ≠ "A&amp;B.C".toList := by
  refine ⟨rfl, ?_⟩
  decide

/-- C6, amended: when the definition serializes and the response has a status
other than 200 and carries the error document of a type string `t` of plain
character data (no `<`, `>`, `&` or carriage return, only characters XML allows),
`Get` returns no rows and the decoded `ApiError` as the fault: its `Type` and
`Error()` are `t`, its `Code()` the code derived from `t`, and the body is decoded
as XML and closed, never read as CSV. For
`AuthorizationError.USER_PERMISSION_DENIED` the code is `USER_PERMISSION_DENIED`. -/
theorem Get_non200_returns_ApiError (lib : Lib) (hxml : decodesXml lib)
    (s : ReportDownloadService) (reportDefinition : ReportDefinition)
    (xmlText t : GoString) (status : Int) (endErr : GoError)
    (hmarshal : lib.MarshalIndent (namedDefinition lib reportDefinition) = Except.ok xmlText)
    (hresp : s.makeRequest lib [("__rdxml".toList, xmlText)] =
      Except.ok ⟨status, ⟨errorDocument t, endErr⟩⟩)
    (hstatus : status ≠ 200) (hplain : plainText t) :
    ∃ fault : ApiError,
      (s.Get lib reportDefinition).out = Exec.ret (none, some (GoError.apiError fault)) ∧
      fault.Type_ = t ∧ fault.Error = t ∧ (GoError.apiError fault).Error = t ∧
      fault.Code = (if dot ∈ t then firstSegment (afterFirstDot t) else t) ∧
      (s.Get lib reportDefinition).ops = [BodyOp.xmlDecode, BodyOp.close] ∧
      BodyOp.csvRead ∉ (s.Get lib reportDefinition).ops ∧
      ApiError.Code ⟨"AuthorizationError.USER_PERMISSION_DENIED".toList⟩ =
        "USER_PERMISSION_DENIED".toList := by
  have hdecode := hxml _ _ (xmlDecode_errorDocument endErr t hplain)
  have hget : s.Get lib reportDefinition =
      ⟨Exec.ret (none, some (GoError.apiError ⟨t⟩)), [BodyOp.xmlDecode, BodyOp.close]⟩ := by
    simp only [ReportDownloadService.Get, hmarshal, hresp, if_pos hstatus, hdecode]
  refine ⟨⟨t⟩, by rw [hget], rfl, rfl, rfl, Code_eq t, by rw [hget], ?_, ?_⟩
  · rw [hget]
    simp
  · decide

theorem Get_non200_returns_ApiError_witness :
    ∃ fault : ApiError,
      ((serviceReplying ⟨403, ⟨errorDocument
          "AuthorizationError.USER_PERMISSION_DENIED".toList, GoError.EOF⟩⟩).Get
        (sampleLib "<reportDefinition></reportDefinition>".toList) sampleDefinition).out =
        Exec.ret (none, some (GoError.apiError fault)) ∧
      fault.Type_ = "AuthorizationError.USER_PERMISSION_DENIED".toList ∧
      fault.Code = "USER_PERMISSION_DENIED".toList := by
  obtain ⟨fault, hout, htype, _, _, _, _, _, hcode⟩ :=
    Get_non200_returns_ApiError (sampleLib "<reportDefinition></reportDefinition>".toList)
      (decodesXml_sampleLib _)
      (serviceReplying ⟨403, ⟨errorDocument
        "AuthorizationError.USER_PERMISSION_DENIED".toList, GoError.EOF⟩⟩)
      sampleDefinition "<reportDefinition></reportDefinition>".toList
      "AuthorizationError.USER_PERMISSION_DENIED".toList 403 GoError.EOF
      rfl rfl (by decide) (by unfold plainText; decide)
  refine ⟨fault, hout, htype, ?_⟩
  have hf : fault = ⟨"AuthorizationError.USER_PERMISSION_DENIED".toList⟩ := by
    cases fault
    simp only at htype
    rw [htype]
  rw [hf]
  exact hcode

/-- C7: for every raw query and format and every response with a status other
than 200 whose body `b` is read without error, `StreamAWQL` returns no stream and
an error whose text is exactly `b`; the body is only read, the XML decoder plays
no part in the result; `AWQL` returns no rows and the same error. -/
theorem StreamAWQL_non200_returns_body_text (lib : Lib) (s : ReportDownloadService)
    (awql fmt : GoString) (resp : Response) (b : GoString)
    (hresp : s.makeRequest lib [("__rdquery".toList, awql), ("__fmt".toList, fmt)] =
      Except.ok resp)
    (hstatus : resp.StatusCode ≠ 200)
    (hread : ReadAll resp.Body = (b, none)) :
    (s.StreamAWQL lib awql fmt).out = Exec.ret (none, some (GoError.errorString b)) ∧
      (GoError.errorString b).Error = b ∧
      (s.StreamAWQL lib awql fmt).ops = [BodyOp.readAll] ∧
      (∀ decode, (s.StreamAWQL
          ⟨lib.baseUrl, lib.reportDownloadServiceUrl, lib.NewRequest, lib.MarshalIndent, decode⟩
          awql fmt).out = (s.StreamAWQL lib awql fmt).out) ∧
      (s.AWQL lib awql fmt).out = Exec.ret (none, some (GoError.errorString b)) ∧
      BodyOp.xmlDecode ∉ (s.AWQL lib awql fmt).ops := by
  have hstream : s.StreamAWQL lib awql fmt =
      ⟨Exec.ret (none, some (GoError.errorString b)), [BodyOp.readAll]⟩ := by
    simp only [ReportDownloadService.StreamAWQL, hresp, if_pos hstatus, hread]
  have hawql : s.AWQL lib awql fmt =
      ⟨Exec.ret (none, some (GoError.errorString b)), [BodyOp.readAll]⟩ := by
    simp only [ReportDownloadService.AWQL, hstream]
  refine ⟨by rw [hstream], rfl, by rw [hstream], fun _ => rfl, by rw [hawql], ?_⟩
  rw [hawql]
  simp

theorem StreamAWQL_non200_returns_body_text_witness :
    ((serviceReplying ⟨429, bytesReader "quota exceeded"⟩).StreamAWQL (sampleLib [])
        "SELECT Clicks FROM CAMPAIGN_PERFORMANCE_REPORT".toList "CSV".toList).out =
      Exec.ret (none, some (GoError.errorString "quota exceeded".toList)) :=
  (StreamAWQL_non200_returns_body_text (sampleLib [])
    (serviceReplying ⟨429, bytesReader "quota exceeded"⟩)
    "SELECT Clicks FROM CAMPAIGN_PERFORMANCE_REPORT".toList "CSV".toList
    ⟨429, bytesReader "quota exceeded"⟩ "quota exceeded".toList rfl (by decide) rfl).1

/-- C8: the two raw-query entry points agree on the same response: if `StreamAWQL`
fails then `AWQL` fails with the same error and no rows, and if `StreamAWQL`
returns a stream then `AWQL` returns exactly what `parseReport` returns on that
stream, rows and error alike. -/
theorem AWQL_agrees_with_StreamAWQL (lib : Lib) (s : ReportDownloadService)
    (awql fmt : GoString) :
    (∀ stream e, (s.StreamAWQL lib awql fmt).out = Exec.ret (stream, some e) →
        (s.AWQL lib awql fmt).out = Exec.ret (none, some e)) ∧
      (∀ body, (s.StreamAWQL lib awql fmt).out = Exec.ret (some body, none) →
        ∃ rows err, parseReport body = Exec.ret (rows, err) ∧
          (s.AWQL lib awql fmt).out = Exec.ret (some rows, err)) := by
  constructor
  · intro stream e h
    simp only [ReportDownloadService.AWQL, h]
  · intro body h
    obtain ⟨rows, err, hparse⟩ := parseReport_returns body
    refine ⟨rows, err, hparse, ?_⟩
    simp only [ReportDownloadService.AWQL, h, hparse, boxRows]

theorem AWQL_agrees_with_StreamAWQL_witness :
    ∃ rows err, parseReport (bytesReader "Campaign,Clicks\n7,10\n") = Exec.ret (rows, err) ∧
      ((serviceReplying ⟨200, bytesReader "Campaign,Clicks\n7,10\n"⟩).AWQL (sampleLib [])
        "SELECT Clicks FROM CAMPAIGN_PERFORMANCE_REPORT".toList "CSV".toList).out =
        Exec.ret (some rows, err) :=
  (AWQL_agrees_with_StreamAWQL (sampleLib [])
    (serviceReplying ⟨200, bytesReader "Campaign,Clicks\n7,10\n"⟩)
    "SELECT Clicks FROM CAMPAIGN_PERFORMANCE_REPORT".toList "CSV".toList).2
    (bytesReader "Campaign,Clicks\n7,10\n") rfl

/-- C9 fails on the code: on a response with status 429 `AWQL` returns the body text
as the error after only reading the body, which is never closed, while
`Get` on a response that is not 200 does close it. -/
theorem AWQL_non200_body_not_closed :
    ((serviceReplying ⟨429, bytesReader "quota exceeded"⟩).AWQL (sampleLib [])
        "SELECT Clicks FROM CAMPAIGN_PERFORMANCE_REPORT".toList "CSV".toList).out =
      Exec.ret (none, some (GoError.errorString "quota exceeded".toList)) ∧
    ((serviceReplying ⟨429, bytesReader "quota exceeded"⟩).AWQL (sampleLib [])
        "SELECT Clicks FROM CAMPAIGN_PERFORMANCE_REPORT".toList "CSV".toList).ops =
      [BodyOp.readAll] ∧
    BodyOp.close ∉ ((serviceReplying ⟨429, bytesReader "quota exceeded"⟩).AWQL (sampleLib [])
        "SELECT Clicks FROM CAMPAIGN_PERFORMANCE_REPORT".toList "CSV".toList).ops ∧
    BodyOp.close ∈ ((serviceReplying ⟨429, bytesReader "quota exceeded"⟩).Get (sampleLib [])
        sampleDefinition).ops := by
  refine ⟨rfl, rfl, ?_, ?_⟩ <;> decide

end Gads
